import Mathlib

/-!
Verification of the temporal-segmentation / histogram core of flex-rs-data.

The Rust source is embedded shallowly:
* timestamps (epoch milliseconds, `i64`) become `Int`;
* `f64` feature values become `ℚ` with the source's arithmetic written out
  exactly (the source formulas involve only `+ - * / floor min max`, which
  are exact on rationals; `f64::MAX` / `f64::MIN` sentinels are embedded as
  the exact rational values of those constants);
* the defined saturating behaviour of Rust's `expr as usize` float-to-int
  cast is modelled explicitly (`intToUsizeSat`); wrap-around of `usize`
  arithmetic (which panics in overflow-checked builds) is outside the model;
* panics (`v[i]` out of bounds, failed `assert!`, `unwrap` on `None`) are
  modelled as `Option.none` / `Except.error`.

Sources embedded: `src/df/time_bound_df.rs` (activity segmentation and
`timespan`), `src/clustered_data.rs` (`NDHistogram`),
`src/utils/stats_utils.rs` (`extrema`), `src/df/raw.rs` (movement score),
`src/user.rs` (`get_raw_df` memoisation).
-/

/-- Embedding of `timespan::Timespan`: closed interval of epoch-millisecond timestamps.
Rust field names are `begin` / `end`; `end` is reserved in Lean, so the
fields are called `tbegin` / `tend` here. The struct is built in the
embedded code by plain struct literals, exactly as in
`time_bound_df.rs` (no smart constructor is involved there). -/
structure Timespan where
  tbegin : Int
  tend : Int
deriving DecidableEq, Repr

/-- Spec §3: `is_inside(t) ⇔ begin ≤ t ≤ end` (inclusive on both ends). -/
def Timespan.is_inside (s : Timespan) (t : Int) : Prop :=
  s.tbegin ≤ t ∧ t ≤ s.tend

instance (s : Timespan) (t : Int) : Decidable (s.is_inside t) := by
  unfold Timespan.is_inside; infer_instance

/-- The loop of `get_activity_timespans` (`time_bound_df.rs:121-130`),
written as structural recursion over the sorted timestamp list.
`b = v[last_index]` is the begin of the block currently being built; the
list argument is `v[i..]` for the current diff position `i`.  A step with
`diff[i] = t₂ - t₁ > threshold` pushes `(v[last_index], v[i])` and restarts
the block at `v[i+1] = t₂`; the final step pushes
`(v[last_index], v.last())`. -/
def segLoop (threshold : Int) (b : Int) : List Int → List Timespan
  | [] => []
  | [t] => [⟨b, t⟩]
  | t₁ :: t₂ :: rest =>
    if threshold < t₂ - t₁ then
      ⟨b, t₁⟩ :: segLoop threshold t₂ (t₂ :: rest)
    else
      segLoop threshold b (t₂ :: rest)

/-- Embedding of `get_activity_timespans` (`time_bound_df.rs:111-132`).  The source
sorts the timestamp vector, then runs the gap loop.  On an empty vector the
source's `v[last_index]` / `v.last().unwrap()` panic, modelled as `none`. -/
def get_activity_timespans (threshold : Int) (times : List Int) :
    Option (List Timespan) :=
  match times.insertionSort (· ≤ ·) with
  | [] => none
  | t :: rest => some (segLoop threshold t (t :: rest))

/-- Consecutive differences `diff = v.windows(2).map(|x| x[1] - x[0])`
(`time_bound_df.rs:119`). -/
def gaps (l : List Int) : List Int :=
  (l.zip l.tail).map (fun p => p.2 - p.1)

/-- Number of consecutive differences strictly above the threshold. -/
def countGaps (threshold : Int) (l : List Int) : Nat :=
  (gaps l).countP (fun d => decide (threshold < d))

theorem gaps_cons (t₁ t₂ : Int) (rest : List Int) :
    gaps (t₁ :: t₂ :: rest) = (t₂ - t₁) :: gaps (t₂ :: rest) := by
  simp [gaps]

theorem segLoop_length (threshold : Int) :
    ∀ (rest : List Int) (t b : Int),
      (segLoop threshold b (t :: rest)).length = 1 + countGaps threshold (t :: rest) := by
  intro rest
  induction rest with
  | nil => intro t b; simp [segLoop, countGaps, gaps]
  | cons t₂ rest ih =>
    intro t b
    by_cases hgap : threshold < t₂ - t
    · simp only [segLoop, if_pos hgap, List.length_cons]
      rw [ih t₂ t₂]
      simp [countGaps, gaps_cons, hgap]
      omega
    · simp only [segLoop, if_neg hgap]
      rw [ih t₂ b]
      simp [countGaps, gaps_cons, hgap]

theorem segLoop_mem (threshold : Int) :
    ∀ (rest : List Int) (t b : Int) (s : Timespan),
      s ∈ segLoop threshold b (t :: rest) →
      (s.tbegin = b ∨ s.tbegin ∈ t :: rest) ∧ s.tend ∈ t :: rest := by
  intro rest
  induction rest with
  | nil =>
    intro t b s hs
    simp [segLoop] at hs
    subst hs
    simp
  | cons t₂ rest ih =>
    intro t b s hs
    by_cases hgap : threshold < t₂ - t
    · simp only [segLoop, if_pos hgap, List.mem_cons] at hs
      rcases hs with h | h
      · subst h; simp
      · rcases ih t₂ t₂ s h with ⟨h1, h2⟩
        refine ⟨?_, by simpa using Or.inr h2⟩
        rcases h1 with h1 | h1
        · right; simp [h1]
        · right; simpa using Or.inr h1
    · simp only [segLoop, if_neg hgap] at hs
      rcases ih t₂ b s hs with ⟨h1, h2⟩
      exact ⟨by tauto, by simpa using Or.inr h2⟩

theorem segLoop_bounds (threshold : Int) :
    ∀ (rest : List Int) (t b : Int),
      b ≤ t → (t :: rest).Sorted (· ≤ ·) →
      ∀ s ∈ segLoop threshold b (t :: rest), b ≤ s.tbegin ∧ s.tbegin ≤ s.tend := by
  intro rest
  induction rest with
  | nil =>
    intro t b hbt _ s hs
    simp [segLoop] at hs
    subst hs
    exact ⟨le_refl _, hbt⟩
  | cons t₂ rest ih =>
    intro t b hbt hsorted s hs
    have ht12 : t ≤ t₂ := (List.sorted_cons.mp hsorted).1 t₂ (by simp)
    have hsorted' : (t₂ :: rest).Sorted (· ≤ ·) := (List.sorted_cons.mp hsorted).2
    by_cases hgap : threshold < t₂ - t
    · simp only [segLoop, if_pos hgap, List.mem_cons] at hs
      rcases hs with h | h
      · subst h; exact ⟨le_refl _, hbt⟩
      · rcases ih t₂ t₂ (le_refl _) hsorted' s h with ⟨h1, h2⟩
        exact ⟨le_trans (le_trans hbt ht12) h1, h2⟩
    · simp only [segLoop, if_neg hgap] at hs
      exact ih t₂ b (le_trans hbt ht12) hsorted' s hs

theorem segLoop_pairwise (threshold : Int) (hth : 0 ≤ threshold) :
    ∀ (rest : List Int) (t b : Int),
      b ≤ t → (t :: rest).Sorted (· ≤ ·) →
      (segLoop threshold b (t :: rest)).Pairwise (fun x y => x.tend < y.tbegin) := by
  intro rest
  induction rest with
  | nil => intro t b _ _; simp [segLoop]
  | cons t₂ rest ih =>
    intro t b hbt hsorted
    have ht12 : t ≤ t₂ := (List.sorted_cons.mp hsorted).1 t₂ (by simp)
    have hsorted' : (t₂ :: rest).Sorted (· ≤ ·) := (List.sorted_cons.mp hsorted).2
    by_cases hgap : threshold < t₂ - t
    · simp only [segLoop, if_pos hgap]
      refine List.pairwise_cons.mpr ⟨?_, ih t₂ t₂ (le_refl _) hsorted'⟩
      intro s hs
      have h := (segLoop_bounds threshold rest t₂ t₂ (le_refl _) hsorted' s hs).1
      have : t < t₂ := by omega
      exact lt_of_lt_of_le this h
    · simp only [segLoop, if_neg hgap]
      exact ih t₂ b (le_trans hbt ht12) hsorted'

/-- C1 counterexample: on the one-sample input `[5]` the segmentation does
not fail — it returns the single zero-length block `[5,5]`.  There is no
`InsufficientData` error anywhere in the source: the function's return type
is a plain `Vec<Timespan>`. -/
theorem get_activity_timespans_singleton_returns_block :
    get_activity_timespans 5000 [5] = some [Timespan.mk 5 5] := by
  decide

/-- C1 (amended): on fewer than 2 samples, `get_activity_timespans`
never surfaces a recoverable error: with zero samples it panics on an
out-of-bounds index (`v[last_index]` on an empty vector, modelled `none`),
and with exactly one sample `t` it returns the single zero-length block
`[t, t]`. -/
theorem get_activity_timespans_short_input (threshold : Int) (times : List Int)
    (h : times.length < 2) :
    (times = [] ∧ get_activity_timespans threshold times = none) ∨
    (∃ t, times = [t] ∧
      get_activity_timespans threshold times = some [Timespan.mk t t]) := by
  match times with
  | [] => exact Or.inl ⟨rfl, rfl⟩
  | [t] => exact Or.inr ⟨t, rfl, rfl⟩
  | a :: b :: l => simp at h; omega

/-- Witness for the C1 theorem at the concrete inputs `[]` and `[5]`. -/
theorem get_activity_timespans_short_input_witness :
    (([5] : List Int).length < 2) ∧
    ((([5] : List Int) = [] ∧ get_activity_timespans 7 [5] = none) ∨
      (∃ t, ([5] : List Int) = [t] ∧
        get_activity_timespans 7 [5] = some [Timespan.mk t t])) :=
  ⟨by decide, get_activity_timespans_short_input 7 [5] (by decide)⟩

/-- C3 counterexample: the claim quantifies over *every* threshold, but at
the negative threshold `-1` the duplicate-timestamp input `[0, 0]`
(non-empty, ascending) yields the two blocks `[0,0]`, `[0,0]`, which
overlap (both contain the timestamp `0`), so the blocks are not pairwise
non-overlapping. -/
theorem get_activity_timespans_neg_threshold_overlap :
    get_activity_timespans (-1) [0, 0] = some [Timespan.mk 0 0, Timespan.mk 0 0] ∧
    ¬ ([Timespan.mk 0 0, Timespan.mk 0 0].Pairwise
        (fun x y => ∀ t : Int, x.is_inside t → ¬ y.is_inside t)) := by
  constructor
  · decide
  · intro hpw
    have h := (List.pairwise_cons.mp hpw).1 (Timespan.mk 0 0) (by simp)
    exact h 0 (by exact ⟨le_refl _, le_refl _⟩) ⟨le_refl _, le_refl _⟩

/-- C3 (amended): for every non-empty *ascending* timestamp sequence and
every *non-negative* threshold, segmentation succeeds and returns blocks
whose begins and ends are drawn only from the input set, which satisfy
`begin ≤ end`, are pairwise non-overlapping and ordered ascending
(`x.end < y.begin` for any earlier block `x` and later block `y`), and
whose count is `1 +` the number of consecutive differences strictly above
the threshold.  (For negative thresholds a duplicated timestamp yields
overlapping blocks, see the counterexample.) -/
theorem get_activity_timespans_sorted_spec (threshold : Int) (times : List Int)
    (hne : times ≠ []) (hsorted : times.Sorted (· ≤ ·)) (hth : 0 ≤ threshold) :
    ∃ blocks, get_activity_timespans threshold times = some blocks ∧
      (∀ s ∈ blocks, s.tbegin ∈ times ∧ s.tend ∈ times) ∧
      (∀ s ∈ blocks, s.tbegin ≤ s.tend) ∧
      blocks.Pairwise (fun x y => x.tend < y.tbegin) ∧
      blocks.Pairwise (fun x y => ∀ t : Int, x.is_inside t → ¬ y.is_inside t) ∧
      blocks.length = 1 + countGaps threshold times := by
  match times, hne with
  | t :: rest, _ =>
    refine ⟨segLoop threshold t (t :: rest), ?_, ?_, ?_, ?_, ?_, ?_⟩
    · unfold get_activity_timespans
      rw [List.Sorted.insertionSort_eq hsorted]
    · intro s hs
      have h := segLoop_mem threshold rest t t s hs
      rcases h with ⟨h1, h2⟩
      refine ⟨?_, h2⟩
      rcases h1 with h1 | h1
      · simp [h1]
      · exact h1
    · intro s hs
      exact (segLoop_bounds threshold rest t t (le_refl _) hsorted s hs).2
    · exact segLoop_pairwise threshold hth rest t t (le_refl _) hsorted
    · refine List.Pairwise.imp ?_
        (segLoop_pairwise threshold hth rest t t (le_refl _) hsorted)
      intro x y hxy u hu hv
      rcases hu with ⟨_, hu2⟩
      rcases hv with ⟨hv1, _⟩
      omega
    · exact segLoop_length threshold rest t t

/-- Witness for the C3 theorem at the spec's concrete scenario:
timestamps `[0, 1000, 2000, 50000, 51000]`, threshold `5000`. -/
theorem get_activity_timespans_sorted_spec_witness :
    (([0, 1000, 2000, 50000, 51000] : List Int) ≠ [] ∧
      ([0, 1000, 2000, 50000, 51000] : List Int).Sorted (· ≤ ·) ∧
      (0 : Int) ≤ 5000) ∧
    (∃ blocks, get_activity_timespans 5000 [0, 1000, 2000, 50000, 51000] = some blocks ∧
      (∀ s ∈ blocks, s.tbegin ∈ ([0, 1000, 2000, 50000, 51000] : List Int) ∧
        s.tend ∈ ([0, 1000, 2000, 50000, 51000] : List Int)) ∧
      (∀ s ∈ blocks, s.tbegin ≤ s.tend) ∧
      blocks.Pairwise (fun x y => x.tend < y.tbegin) ∧
      blocks.Pairwise (fun x y => ∀ t : Int, x.is_inside t → ¬ y.is_inside t) ∧
      blocks.length = 1 + countGaps 5000 [0, 1000, 2000, 50000, 51000]) :=
  ⟨⟨by decide, by decide, by decide⟩,
    get_activity_timespans_sorted_spec 5000 [0, 1000, 2000, 50000, 51000]
      (by decide) (by decide) (by decide)⟩

/-! Section: `timespan()` with the plausible-window clamp (`time_bound_df.rs:80-108`) -/

/-- Milliseconds of `2023-01-01T00:00:00` (the lower clamp bound the
source builds from `NaiveDate::from_ymd_opt(2023, 1, 1)`). -/
def clampLo : Int := 1672531200000

/-- Milliseconds of `2024-01-01T00:00:00` (the upper clamp bound the
source builds from `NaiveDate::from_ymd_opt(2024, 1, 1)`). -/
def clampHi : Int := 1704067200000

/-- Minimum of a time column, as polars' `ChunkedArray::min()` (`None` on
an empty column). -/
def listMin : List Int → Option Int
  | [] => none
  | a :: l => some (l.foldl min a)

/-- Maximum of a time column, as polars' `ChunkedArray::max()`. -/
def listMax : List Int → Option Int
  | [] => none
  | a :: l => some (l.foldl max a)

/-- Embedding of `timespan()` (`time_bound_df.rs:80-108`): begin is the column minimum
clamped *up* to `clampLo`, end is the column maximum clamped *down* to
`clampHi`; `None` on an empty column. -/
def timespan (times : List Int) : Option Timespan :=
  match listMin times, listMax times with
  | some mn, some mx => some ⟨max mn clampLo, min mx clampHi⟩
  | _, _ => none

theorem foldl_min_le_self (a : Int) (l : List Int) : l.foldl min a ≤ a := by
  induction l generalizing a with
  | nil => simp
  | cons b l ih => exact le_trans (ih (min a b)) (min_le_left a b)

theorem self_le_foldl_max (a : Int) (l : List Int) : a ≤ l.foldl max a := by
  induction l generalizing a with
  | nil => simp
  | cons b l ih => exact le_trans (le_max_left a b) (ih (max a b))

/-- C7 counterexample: for a column holding the single timestamp
`2025-01-01T00:00:00` (= `1735689600000` ms, outside the plausible
window), `timespan()` returns a `Timespan` with `end < begin`: begin stays
`1735689600000` but end is clamped down to `1704067200000`.  So the
`begin ≤ end` invariant does *not* hold for every `Timespan` the code
builds. -/
theorem timespan_end_lt_begin_example :
    timespan [1735689600000] = some (Timespan.mk 1735689600000 1704067200000) ∧
    (Timespan.mk 1735689600000 1704067200000).tend
      < (Timespan.mk 1735689600000 1704067200000).tbegin := by
  constructor
  · decide
  · decide

/-- C7 (amended): `timespan()` of a non-empty column satisfies
`begin ≤ end` *provided* the observed range intersects the plausible
validity window, i.e. the column minimum is at most `2024-01-01` and the
column maximum is at least `2023-01-01`.  When the data lies entirely
outside the window, clamping produces `begin > end` (see the
counterexample); nothing at this construction site enforces the invariant. -/
theorem timespan_begin_le_end (times : List Int) (mn mx : Int)
    (hmn : listMin times = some mn) (hmx : listMax times = some mx)
    (hwin1 : mn ≤ clampHi) (hwin2 : clampLo ≤ mx) :
    ∃ ts, timespan times = some ts ∧ ts.tbegin ≤ ts.tend := by
  match times with
  | [] => simp [listMin] at hmn
  | a :: l =>
    refine ⟨⟨max mn clampLo, min mx clampHi⟩, ?_, ?_⟩
    · unfold timespan
      rw [hmn, hmx]
    · simp only [listMin, Option.some.injEq] at hmn
      simp only [listMax, Option.some.injEq] at hmx
      have h1 : mn ≤ a := hmn ▸ foldl_min_le_self a l
      have h2 : a ≤ mx := hmx ▸ self_le_foldl_max a l
      have hlohi : clampLo ≤ clampHi := by decide
      simp only [Timespan.mk.injEq]
      omega

/-- Witness for the C7 theorem at the concrete in-window column
`[1680000000000, 1690000000000]`. -/
theorem timespan_begin_le_end_witness :
    (listMin [1680000000000, 1690000000000] = some 1680000000000 ∧
      listMax [1680000000000, 1690000000000] = some 1690000000000 ∧
      (1680000000000 : Int) ≤ clampHi ∧ clampLo ≤ (1690000000000 : Int)) ∧
    (∃ ts, timespan [1680000000000, 1690000000000] = some ts ∧
      ts.tbegin ≤ ts.tend) :=
  ⟨⟨by decide, by decide, by decide, by decide⟩,
    timespan_begin_le_end [1680000000000, 1690000000000] 1680000000000 1690000000000
      (by decide) (by decide) (by decide) (by decide)⟩

/-! Section: NDHistogram (`clustered_data.rs`) -/

/-- Panic modes of `NDHistogram::new`: a failed `assert!`
(`clustered_data.rs:37-43`) and an out-of-bounds slice index
(`limits[x.0]`, `clustered_data.rs:53`). -/
inductive HErr where
  | assertFailed
  | indexOutOfBounds
deriving DecidableEq, Repr

/-- Exact rational value of `f64::MAX`; `f64::MIN = -f64MAX`.  These are
the fold seeds of `Extrema for Vec<f64>` (`stats_utils.rs:29-43`). -/
def f64MAX : ℚ := (2 ^ 53 - 1) * 2 ^ 971

/-- Embedding of `extrema` (`stats_utils.rs:29-43`): one pass keeping the running
minimum and maximum, seeded with `(f64::MAX, f64::MIN)`. -/
def extrema (l : List ℚ) : ℚ × ℚ :=
  l.foldl
    (fun mm x => (if x < mm.1 then x else mm.1, if x > mm.2 then x else mm.2))
    (f64MAX, -f64MAX)

/-- The `0.00000001` literal of `clustered_data.rs:60`. -/
def q8 : ℚ := 1 / 100000000

/-- The `0.000001` literal of `clustered_data.rs:60`. -/
def q6 : ℚ := 1 / 1000000

/-- Embedding of `gen_histogram_border` (`clustered_data.rs:81-87`): the `n+1` edges
`lo + (hi - lo) / n * i` for `i in 0..=n`. -/
def gen_histogram_border (ex : ℚ × ℚ) (n : ℕ) : List ℚ :=
  (List.range (n + 1)).map (fun i => ex.1 + (ex.2 - ex.1) / (n : ℚ) * (i : ℚ))

/-- The `borders` construction of `NDHistogram::new`
(`clustered_data.rs:50-54`), with the enumeration counter `d` (the
source's `x.0`) explicit: reading `limits[d]` past the end of `limits`
panics, modelled as `.error .indexOutOfBounds`. -/
def bordersAux (limits : List (Option (ℚ × ℚ))) (n : ℕ) :
    ℕ → List (List ℚ) → Except HErr (List (List ℚ))
  | _, [] => .ok []
  | d, col :: rest =>
    match limits.get? d with
    | none => .error .indexOutOfBounds
    | some lim =>
      (bordersAux limits n (d + 1) rest).map
        (fun bs => gen_histogram_border (lim.getD (extrema col)) n :: bs)

/-- Value of `usize::MAX` on the 64-bit targets the crate builds for. -/
def usizeMax : ℕ := 2 ^ 64 - 1

/-- Rust's defined saturating `as usize` cast applied to the exact integer
value of an `f64.floor()`: negative values clamp to `0`, values above
`usize::MAX` clamp to `usize::MAX` (`clustered_data.rs:69-70`). -/
def intToUsizeSat (z : ℤ) : ℕ :=
  min z.toNat usizeMax

/-- The coordinate loop (`clustered_data.rs:68-71`):
`coords[d] = (((data[d][i] - borders[d][0]) / deltas[d]) * n).floor() as usize`. -/
def coordsOf (data borders : List (List ℚ)) (deltas : List ℚ) (n i : ℕ) :
    List ℕ :=
  (List.range data.length).map (fun d =>
    intToUsizeSat
      ⌊((data.getD d []).getD i 0 - (borders.getD d []).headD 0)
          / deltas.getD d 0 * (n : ℚ)⌋)

/-- Embedding of `impl Into<usize> for NDCoords` (`clustered_data.rs:111-120`):
reverse, enumerate, weight position `k` by `n^k`, sum — so dimension 0 is
the most significant digit. -/
def ndCoordsIndex (coords : List ℕ) (n : ℕ) : ℕ :=
  (coords.reverse.enum.map (fun x => x.2 * n ^ x.1)).sum

/-- The flattened basket index of sample `i` (`clustered_data.rs:72`). -/
def sampleIndex (data borders : List (List ℚ)) (deltas : List ℚ) (n i : ℕ) :
    ℕ :=
  ndCoordsIndex (coordsOf data borders deltas n i) n

/-- One iteration of the basket loop (`clustered_data.rs:73-75`): an index
below `max_index` increments its basket, any other index is dropped. -/
def bump (maxIndex : ℕ) (b : List ℕ) (ix : ℕ) : List ℕ :=
  if ix < maxIndex then b.set ix (b.getD ix 0 + 1) else b

/-- The whole basket loop (`clustered_data.rs:67-76`). -/
def fillBaskets (maxIndex : ℕ) (idxs : List ℕ) (init : List ℕ) : List ℕ :=
  idxs.foldl (bump maxIndex) init

/-- Embedding of `NDHistogram` (`clustered_data.rs:7-11`): flat basket counts plus one
border list per dimension. -/
structure NDHistogram where
  baskets : List ℕ
  borders : List (List ℚ)
deriving DecidableEq, Repr

/-- Embedding of `NDHistogram::n` (`clustered_data.rs:14-19`). -/
def NDHistogram.n (h : NDHistogram) : ℕ :=
  match h.borders.head? with
  | some v => v.length - 1
  | none => 0

/-- Embedding of `NDHistogram::dim` (`clustered_data.rs:21-23`). -/
def NDHistogram.dim (h : NDHistogram) : ℕ :=
  h.borders.length

/-- Embedding of `NDHistogram::new` (`clustered_data.rs:25-79`).  The early return
fires only when `data` itself or its *first* column is empty; then the
`assert!` checks equal column lengths and, when `limits` is supplied, that
it has one entry per column; the default `limits` built for `None` has
length `n` (`(0..n).map(|_| None)`), *not* `data.len()`. -/
def NDHistogram.new (data : List (List ℚ)) (n : ℕ)
    (limits : Option (List (Option (ℚ × ℚ)))) : Except HErr NDHistogram :=
  match data with
  | [] => .ok ⟨[], []⟩
  | c0 :: _ =>
    if c0.isEmpty then .ok ⟨[], []⟩
    else if ¬ (data.all (fun col => col.length == c0.length) &&
        (limits.isNone || (limits.getD []).length == data.length)) then
      .error .assertFailed
    else
      let limits' := match limits with
        | some l => l
        | none => (List.range n).map (fun _ => none)
      match bordersAux limits' n 0 data with
      | .error e => .error e
      | .ok borders =>
        let baskets0 : List ℕ := List.replicate (n ^ data.length) 0
        let deltas := borders.map
          (fun b => max (q8 + b.getLastD 0 - b.headD 0) q6)
        let maxIndex := baskets0.length
        let idxs := (List.range c0.length).map
          (fun i => sampleIndex data borders deltas n i)
        .ok ⟨fillBaskets maxIndex idxs baskets0, borders⟩

/-- C2 counterexample: the early return only inspects the *first* column.
For `data = [[1], []]` — where a non-first column is empty — construction
does not return the canonical empty histogram: the equal-length `assert!`
fails (a panic, modelled `.error .assertFailed`). -/
theorem ndHistogram_new_second_col_empty_asserts :
    NDHistogram.new [[1], []] 1 none = .error .assertFailed := by
  rfl

/-- C2 (amended): if `data` itself is empty or the *first* feature
sequence is empty, `NDHistogram::new` returns the canonical empty
histogram (`baskets = []`, `borders = []`) without any assertion failure,
and on that result `dim() = 0` and `n() = 0`.  (An empty *non-first*
sequence instead trips the equal-length assertion, see the
counterexample.) -/
theorem ndHistogram_new_empty_input (data : List (List ℚ)) (n : ℕ)
    (limits : Option (List (Option (ℚ × ℚ))))
    (h : data = [] ∨ data.head? = some []) :
    NDHistogram.new data n limits = .ok ⟨[], []⟩ ∧
    (NDHistogram.mk [] []).dim = 0 ∧ (NDHistogram.mk [] []).n = 0 := by
  refine ⟨?_, rfl, rfl⟩
  rcases h with h | h
  · subst h; rfl
  · match data, h with
    | [] :: rest, _ => rfl

/-- Witness for the C2 theorem at `data = [[], [3]]` (first column
empty). -/
theorem ndHistogram_new_empty_input_witness :
    (([[], [3]] : List (List ℚ)) = [] ∨
      ([[], [3]] : List (List ℚ)).head? = some []) ∧
    (NDHistogram.new [[], [3]] 2 none = .ok ⟨[], []⟩ ∧
      (NDHistogram.mk [] []).dim = 0 ∧ (NDHistogram.mk [] []).n = 0) :=
  ⟨Or.inr rfl, ndHistogram_new_empty_input [[], [3]] 2 none (Or.inr rfl)⟩

/-- C9: `NDHistogram` construction is a pure function of
`(data, n, limits)`; building twice from identical arguments yields
identical results (in particular identical baskets and borders).  The
embedded `new` has no hidden state: the source's only iteration is over
`Vec`s in index order. -/
theorem ndHistogram_new_deterministic (data : List (List ℚ)) (n : ℕ)
    (limits : Option (List (Option (ℚ × ℚ)))) :
    NDHistogram.new data n limits = NDHistogram.new data n limits :=
  rfl

/-- Spec §4.5, stated literally: the per-dimension bin coordinate is
`floor(((value - lo) / delta) * n)` — a mathematical integer, with no
cast. -/
def specBinCoord (value lo delta : ℚ) (n : ℕ) : ℤ :=
  ⌊(value - lo) / delta * (n : ℚ)⌋

/-- Spec §4.5, stated literally: mixed-radix flattening
`index = Σ_d coord[d] * n^(D-1-d)` with dimension 0 most significant. -/
def specFlatten (coords : List ℕ) (n : ℕ) : ℕ :=
  ∑ d in Finset.range coords.length, coords.getD d 0 * n ^ (coords.length - 1 - d)

theorem ndCoordsIndex_nil (n : ℕ) : ndCoordsIndex [] n = 0 := rfl

theorem ndCoordsIndex_cons (c : ℕ) (cs : List ℕ) (n : ℕ) :
    ndCoordsIndex (c :: cs) n = c * n ^ cs.length + ndCoordsIndex cs n := by
  unfold ndCoordsIndex
  rw [List.reverse_cons, List.enum_append]
  simp [List.enumFrom, Nat.add_comm]

theorem specFlatten_nil (n : ℕ) : specFlatten [] n = 0 := rfl

theorem specFlatten_cons (c : ℕ) (cs : List ℕ) (n : ℕ) :
    specFlatten (c :: cs) n = c * n ^ cs.length + specFlatten cs n := by
  unfold specFlatten
  rw [List.length_cons, Finset.sum_range_succ']
  have hc : ∀ k ∈ Finset.range cs.length,
      (c :: cs).getD (k + 1) 0 * n ^ (cs.length + 1 - 1 - (k + 1))
        = cs.getD k 0 * n ^ (cs.length - 1 - k) := by
    intro k _
    have he : cs.length + 1 - 1 - (k + 1) = cs.length - 1 - k := by omega
    rw [he, List.getD_cons_succ]
  rw [Finset.sum_congr rfl hc]
  simp [List.getD_cons_zero, Nat.add_comm]

theorem ndCoordsIndex_eq_specFlatten (coords : List ℕ) (n : ℕ) :
    ndCoordsIndex coords n = specFlatten coords n := by
  induction coords with
  | nil => rfl
  | cons c cs ih => rw [ndCoordsIndex_cons, specFlatten_cons, ih]

theorem getD_map_range (f : ℕ → ℕ) (D d : ℕ) (hd : d < D) :
    ((List.range D).map f).getD d 0 = f d := by
  rw [List.getD_eq_getElem?_getD, List.getElem?_map, List.getElem?_range hd]
  rfl

/-- C4 (amended): for every sample, the flattened basket index computed by
the source is the spec's mixed-radix sum `Σ_d coord[d] * n^(D-1-d)` with
dimension 0 most significant, where each `coord[d]` is the *saturating
usize cast* of the spec's `floor(((value - lo) / delta) * n)` — negative
floors clamp to `0` (and floors above `usize::MAX` clamp to `usize::MAX`)
rather than being used as-is. -/
theorem sampleIndex_mixed_radix (data borders : List (List ℚ))
    (deltas : List ℚ) (n i : ℕ) :
    sampleIndex data borders deltas n i =
      ∑ d in Finset.range data.length,
        intToUsizeSat (specBinCoord ((data.getD d []).getD i 0)
            ((borders.getD d []).headD 0) (deltas.getD d 0) n)
          * n ^ (data.length - 1 - d) := by
  unfold sampleIndex coordsOf
  rw [ndCoordsIndex_eq_specFlatten]
  unfold specFlatten specBinCoord
  rw [List.length_map, List.length_range]
  refine Finset.sum_congr rfl ?_
  intro d hd
  rw [getD_map_range _ _ _ (Finset.mem_range.mp hd)]

/-- C4 counterexample: with `data = [[0]]`, `n = 1` and the limit
`(lo, hi) = (1, 2)`, the spec's coordinate formula gives
`floor(((0 - 1) / delta) * 1) = -1` (so by the spec the flattened index
would be `-1`, out of `[0, 1)`, and the sample would be dropped), but the
code's `as usize` cast clamps `-1` to `0` and the sample is counted in
basket `0`: construction returns `baskets = [1]`. -/
theorem ndHistogram_coord_saturates :
    NDHistogram.new [[0]] 1 (some [some (1, 2)]) =
      .ok ⟨[1], [[1, 2]]⟩ ∧
    specBinCoord 0 1 (max (q8 + 2 - 1) q6) 1 = -1 := by
  constructor
  · have hb : bordersAux [some (1, 2)] 1 0 [[0]] = .ok [[1, 2]] := by
      norm_num [bordersAux, gen_histogram_border, List.range_succ, Except.map]
    have hs : sampleIndex [[0]] [[1, 2]] [max (q8 + 2 - 1) q6] 1 0 = 0 := by
      have hmax : max (q8 + 2 - 1) q6 = 1 + q8 := by
        rw [max_eq_left] <;> norm_num [q8, q6]
      simp only [sampleIndex, coordsOf, hmax, show List.range 1 = [0] from rfl,
        List.map_nil, List.map_cons, List.length_cons, List.length_nil]
      norm_num [ndCoordsIndex, intToUsizeSat, usizeMax]
      norm_num [q8]
    simp only [NDHistogram.new]
    norm_num [hb, fillBaskets, bump, hs, List.range_succ]
  · have hmax : max (q8 + 2 - 1) q6 = 1 + q8 := by
      rw [max_eq_left] <;> norm_num [q8, q6]
    rw [specBinCoord, hmax]
    norm_num [q8]

theorem bump_length (m : ℕ) (b : List ℕ) (ix : ℕ) :
    (bump m b ix).length = b.length := by
  unfold bump
  split <;> simp

theorem fillBaskets_length (m : ℕ) (idxs : List ℕ) (init : List ℕ) :
    (fillBaskets m idxs init).length = init.length := by
  induction idxs generalizing init with
  | nil => rfl
  | cons ix idxs ih =>
    simp only [fillBaskets, List.foldl_cons]
    exact (ih (bump m init ix)).trans (bump_length m init ix)

theorem sum_set_incr (b : List ℕ) (ix : ℕ) (h : ix < b.length) :
    (b.set ix (b.getD ix 0 + 1)).sum = b.sum + 1 := by
  induction b generalizing ix with
  | nil => simp at h
  | cons a bs ih =>
    cases ix with
    | zero => simp [List.getD_cons_zero, List.sum_cons]; omega
    | succ k =>
      have hk : k < bs.length := by simpa using h
      simp only [List.getD_cons_succ, List.set_cons_succ, List.sum_cons, ih k hk]
      omega

theorem bump_sum (m : ℕ) (b : List ℕ) (ix : ℕ) (hb : b.length = m) :
    (bump m b ix).sum = b.sum + (if ix < m then 1 else 0) := by
  unfold bump
  by_cases h : ix < m
  · rw [if_pos h, if_pos h, sum_set_incr b ix (hb ▸ h)]
  · rw [if_neg h, if_neg h, Nat.add_zero]

theorem fillBaskets_sum (m : ℕ) (idxs : List ℕ) (init : List ℕ)
    (hlen : init.length = m) :
    (fillBaskets m idxs init).sum
      = init.sum + idxs.countP (fun ix => decide (ix < m)) := by
  induction idxs generalizing init with
  | nil => simp [fillBaskets]
  | cons ix idxs ih =>
    simp only [fillBaskets, List.foldl_cons] at *
    rw [ih (bump m init ix) ((bump_length m init ix).trans hlen),
      bump_sum m init ix hlen, List.countP_cons]
    by_cases h : ix < m
    · simp [h]
      omega
    · simp [h]

theorem bordersAux_ok (limits : List (Option (ℚ × ℚ))) (n : ℕ) :
    ∀ (cols : List (List ℚ)) (d : ℕ), d + cols.length ≤ limits.length →
      ∃ bs, bordersAux limits n d cols = .ok bs := by
  intro cols
  induction cols with
  | nil => intro d _; exact ⟨[], rfl⟩
  | cons col rest ih =>
    intro d hd
    have hlt : d < limits.length := by simp at hd; omega
    have hget : limits.get? d = some (limits.get ⟨d, hlt⟩) := List.get?_eq_get hlt
    obtain ⟨bs, hbs⟩ := ih (d + 1) (by simp at hd ⊢; omega)
    refine ⟨gen_histogram_border ((limits.get ⟨d, hlt⟩).getD (extrema col)) n :: bs, ?_⟩
    simp only [bordersAux]
    rw [hget, hbs]
    rfl

/-- C6: for every input accepted by the assertions (non-empty first
column, equal column lengths, well-formed limits), construction succeeds
— out-of-range samples raise no error — and the basket counts sum to
exactly the number of samples whose flattened index lies in
`[0, n^D)`; in particular the sum is at most the sample count `N`. -/
theorem ndHistogram_baskets_sum (data : List (List ℚ)) (n : ℕ)
    (limits : Option (List (Option (ℚ × ℚ)))) (c0 : List ℚ) (rest : List (List ℚ))
    (hdata : data = c0 :: rest) (hc0 : c0 ≠ [])
    (hlen : ∀ col ∈ data, col.length = c0.length)
    (hlim : (limits = none ∧ data.length ≤ n) ∨
      (∃ l, limits = some l ∧ l.length = data.length)) :
    ∃ H, NDHistogram.new data n limits = .ok H ∧
      H.baskets.sum =
        ((List.range c0.length).map (fun i =>
          sampleIndex data H.borders
            (H.borders.map (fun b => max (q8 + b.getLastD 0 - b.headD 0) q6))
            n i)).countP (fun ix => decide (ix < n ^ data.length)) ∧
      H.baskets.sum ≤ c0.length := by
  subst hdata
  have hemp : c0.isEmpty = false := by
    cases c0
    · simp at hc0
    · rfl
  have hall : (c0 :: rest).all (fun col => col.length == c0.length) = true := by
    rw [List.all_eq_true]
    intro col hcol
    simpa using hlen col hcol
  rcases hlim with ⟨hnone, hDn⟩ | ⟨l, hsome, hlenl⟩
  · subst hnone
    obtain ⟨bs, hbs⟩ := bordersAux_ok ((List.range n).map (fun _ => none)) n
      (c0 :: rest) 0 (by simpa using hDn)
    refine ⟨⟨fillBaskets (List.replicate (n ^ (c0 :: rest).length) 0).length
        ((List.range c0.length).map (fun i =>
          sampleIndex (c0 :: rest) bs
            (bs.map (fun b => max (q8 + b.getLastD 0 - b.headD 0) q6)) n i))
        (List.replicate (n ^ (c0 :: rest).length) 0), bs⟩, ?_, ?_, ?_⟩
    · simp only [NDHistogram.new, hemp, Bool.false_eq_true, if_false, hall,
        Option.isNone_none, Bool.true_and, Bool.true_or, not_true, if_false,
        hbs]
    · rw [fillBaskets_sum _ _ _ rfl]
      simp [List.length_replicate]
    · rw [fillBaskets_sum _ _ _ rfl]
      simp only [List.sum_replicate, smul_zero, Nat.zero_add]
      exact le_trans (List.countP_le_length _) (by simp)
  · subst hsome
    obtain ⟨bs, hbs⟩ := bordersAux_ok l n (c0 :: rest) 0 (by omega)
    refine ⟨⟨fillBaskets (List.replicate (n ^ (c0 :: rest).length) 0).length
        ((List.range c0.length).map (fun i =>
          sampleIndex (c0 :: rest) bs
            (bs.map (fun b => max (q8 + b.getLastD 0 - b.headD 0) q6)) n i))
        (List.replicate (n ^ (c0 :: rest).length) 0), bs⟩, ?_, ?_, ?_⟩
    · simp only [NDHistogram.new, hemp, Bool.false_eq_true, if_false, hall,
        Option.isNone_some, Bool.false_or, Option.getD_some, Bool.true_and,
        hlenl, beq_self_eq_true, not_true, if_false, hbs]
    · rw [fillBaskets_sum _ _ _ rfl]
      simp [List.length_replicate]
    · rw [fillBaskets_sum _ _ _ rfl]
      simp only [List.sum_replicate, smul_zero, Nat.zero_add]
      exact le_trans (List.countP_le_length _) (by simp)

/-- Witness for the C6 theorem at `data = [[0, 2]]`, `n = 1`,
`limits = [(0, 1)]`: the sample `2` lies above the range, gets flattened
index 1 ∉ [0, 1), and is dropped, so the baskets sum to 1 < 2. -/
theorem ndHistogram_baskets_sum_witness :
    (([[0, 2]] : List (List ℚ)) = [(0 : ℚ), 2] :: [] ∧
      ([(0 : ℚ), 2] : List ℚ) ≠ [] ∧
      (∀ col ∈ ([[0, 2]] : List (List ℚ)), col.length = ([(0 : ℚ), 2]).length) ∧
      ((some [some ((0 : ℚ), (1 : ℚ))] = none ∧ ([[0, 2]] : List (List ℚ)).length ≤ 1) ∨
        (∃ l, some [some ((0 : ℚ), (1 : ℚ))] = some l ∧
          l.length = ([[0, 2]] : List (List ℚ)).length))) ∧
    (∃ H, NDHistogram.new [[0, 2]] 1 (some [some (0, 1)]) = .ok H ∧
      H.baskets.sum =
        ((List.range ([(0 : ℚ), 2]).length).map (fun i =>
          sampleIndex [[0, 2]] H.borders
            (H.borders.map (fun b => max (q8 + b.getLastD 0 - b.headD 0) q6))
            1 i)).countP (fun ix => decide (ix < 1 ^ ([[0, 2]] : List (List ℚ)).length)) ∧
      H.baskets.sum ≤ ([(0 : ℚ), 2]).length) :=
  ⟨⟨rfl, by simp, by simp, Or.inr ⟨[some (0, 1)], rfl, rfl⟩⟩,
    ndHistogram_baskets_sum [[0, 2]] 1 (some [some (0, 1)]) [0, 2] []
      rfl (by simp) (by simp) (Or.inr ⟨[some (0, 1)], rfl, rfl⟩)⟩

theorem bordersAux_err (limits : List (Option (ℚ × ℚ))) (n : ℕ) :
    ∀ (cols : List (List ℚ)) (d : ℕ), cols ≠ [] →
      limits.length < d + cols.length →
      bordersAux limits n d cols = .error .indexOutOfBounds := by
  intro cols
  induction cols with
  | nil => intro d h; simp at h
  | cons col rest ih =>
    intro d _ hd
    by_cases hlt : d < limits.length
    · have hget : limits.get? d = some (limits.get ⟨d, hlt⟩) := List.get?_eq_get hlt
      have hrest : rest ≠ [] := by
        intro h
        subst h
        simp at hd
        omega
      have herr := ih (d + 1) hrest (by simp at hd ⊢; omega)
      simp only [bordersAux]
      rw [hget, herr]
      rfl
    · have hget : limits.get? d = none := List.get?_eq_none.mpr (by omega)
      simp only [bordersAux]
      rw [hget]

/-- C10: when `limits` is `None`, the default limits vector is built with
length `n` — the *bin count* — rather than `D = data.len()`
(`(0..n).map(|_| None)`, `clustered_data.rs:47`).  Hence for every
non-empty input with more dimensions than bins (`D > n`) and no limits,
construction panics on the out-of-bounds `limits[x.0]` read instead of
returning a histogram; callers omitting `limits` must keep `n ≥ D`. -/
theorem ndHistogram_default_limits_oob (data : List (List ℚ)) (n : ℕ)
    (c0 : List ℚ) (rest : List (List ℚ))
    (hdata : data = c0 :: rest) (hc0 : c0 ≠ [])
    (hlen : ∀ col ∈ data, col.length = c0.length)
    (hD : n < data.length) :
    NDHistogram.new data n none = .error .indexOutOfBounds := by
  subst hdata
  have hemp : c0.isEmpty = false := by
    cases c0
    · simp at hc0
    · rfl
  have hall : (c0 :: rest).all (fun col => col.length == c0.length) = true := by
    rw [List.all_eq_true]
    intro col hcol
    simpa using hlen col hcol
  have herr := bordersAux_err ((List.range n).map (fun _ => none)) n
    (c0 :: rest) 0 (by simp) (by simpa using hD)
  simp only [NDHistogram.new, hemp, Bool.false_eq_true, if_false, hall,
    Option.isNone_none, Bool.true_and, Bool.true_or, not_true, if_false, herr]

/-- Witness for the C10 theorem at `data = [[1], [1]]` (`D = 2`),
`n = 1`. -/
theorem ndHistogram_default_limits_oob_witness :
    (([[1], [1]] : List (List ℚ)) = [(1 : ℚ)] :: [[1]] ∧
      ([(1 : ℚ)] : List ℚ) ≠ [] ∧
      (∀ col ∈ ([[1], [1]] : List (List ℚ)), col.length = ([(1 : ℚ)]).length) ∧
      1 < ([[1], [1]] : List (List ℚ)).length) ∧
    NDHistogram.new [[1], [1]] 1 none = .error .indexOutOfBounds :=
  ⟨⟨rfl, by simp, by simp, by simp⟩,
    ndHistogram_default_limits_oob [[1], [1]] 1 [1] [[1]] rfl (by simp)
      (by simp) (by simp)⟩

/-! Section: movement score (`raw.rs:164-189`) -/

/-- Per-axis absolute first differences of the acceleration column
(`raw.rs:178-182`): `windows(2).map(|x| [x1-x0 per axis].map(abs))`. -/
def accDiffs (acc : List (Int × Int × Int)) : List (Int × Int × Int) :=
  (acc.zip acc.tail).map (fun p =>
    (|p.2.1 - p.1.1|, |p.2.2.1 - p.1.2.1|, |p.2.2.2 - p.1.2.2|))

/-- Rust slice `windows(n)`: all contiguous sub-slices of length `n`, in
order; none when the slice is shorter than `n`.  (`windows(0)` panics in
Rust; the source only uses `n = 15`.) -/
def windows {α : Type} (n : ℕ) : List α → List (List α)
  | [] => []
  | a :: l => if l.length + 1 < n then [] else (a :: l).take n :: windows n l

/-- Sum of the three axes of one difference vector (`v[0]+v[1]+v[2]`,
`raw.rs:186`). -/
def sum3 (v : Int × Int × Int) : Int :=
  v.1 + v.2.1 + v.2.2

/-- Embedding of `calc_movement_score` (`raw.rs:177-189`): for each window of `n`
consecutive difference vectors, sum all three axes across the window,
divide by `n`, divide by the normalization constant `8.0`. -/
def calc_movement_score (n : ℕ) (acc : List (Int × Int × Int)) : List ℚ :=
  (windows n (accDiffs acc)).map
    (fun w => ((w.map sum3).sum : ℚ) / (n : ℚ) / 8)

/-- Embedding of `with_movement_score` (`raw.rs:164-175`): 15 zero samples followed by
`calc_movement_score(15)`. -/
def with_movement_score (acc : List (Int × Int × Int)) : List ℚ :=
  List.replicate 15 0 ++ calc_movement_score 15 acc

/-- The spec's `movement_score(n)` — the padded score with the window size
generalized (the source hardcodes `n = 15` in `with_movement_score`). -/
def movement_score (n : ℕ) (acc : List (Int × Int × Int)) : List ℚ :=
  List.replicate n 0 ++ calc_movement_score n acc

theorem with_movement_score_eq (acc : List (Int × Int × Int)) :
    with_movement_score acc = movement_score 15 acc := rfl

/-- C5 counterexample: on the one-sample input there is no difference
vector and no window, yet 15 zeros are still prepended: the output has
length 15, not the input length 1.  Output length equals input length only
once the input holds at least `n` samples. -/
theorem with_movement_score_length_mismatch :
    (with_movement_score [(0, 0, 0)]).length = 15 ∧
    ([((0 : Int), (0 : Int), (0 : Int))] : List (Int × Int × Int)).length = 1 := by
  constructor
  · rfl
  · rfl

theorem windows_length {α : Type} (n : ℕ) (hn : 1 ≤ n) (l : List α) :
    (windows n l).length = l.length + 1 - n := by
  induction l with
  | nil => simp [windows]; omega
  | cons a l ih =>
    by_cases h : l.length + 1 < n
    · simp [windows, h]
      omega
    · simp [windows, h, ih]
      omega

theorem windows_getq {α : Type} (n : ℕ) (hn : 1 ≤ n) :
    ∀ (l : List α) (j : ℕ), j + n ≤ l.length →
      (windows n l).get? j = some ((l.drop j).take n) := by
  intro l
  induction l with
  | nil => intro j hj; simp at hj; omega
  | cons a l ih =>
    intro j hj
    have hguard : ¬ (l.length + 1 < n) := by
      simp at hj
      omega
    cases j with
    | zero => simp [windows, hguard]
    | succ k =>
      have hk : k + n ≤ l.length := by simp at hj; omega
      simp only [windows, if_neg hguard, List.get?_cons_succ, List.drop_succ_cons]
      exact ih k hk

theorem replicate_getq (n i : ℕ) (hi : i < n) :
    (List.replicate n (0 : ℚ)).get? i = some 0 := by
  induction n generalizing i with
  | zero => omega
  | succ m ih =>
    cases i with
    | zero => rfl
    | succ k => exact ih k (by omega)

/-- C5 (amended): `movement_score(n)` returns `max n N` samples for an
input of `N` samples — equal to `N` exactly when `N ≥ n`, and `n` zeros
when the input is shorter.  The first `n` entries are exactly `0.0`, and
entry `n + j` (for every full window `j`) is the sum over `n` consecutive
per-axis absolute first differences, summed across all three axes, divided
by `n` and divided again by `8.0`. -/
theorem movement_score_spec (n : ℕ) (acc : List (Int × Int × Int)) (hn : 1 ≤ n) :
    (movement_score n acc).length = max n acc.length ∧
    (∀ i, i < n → (movement_score n acc).get? i = some 0) ∧
    (∀ j, j + n ≤ (accDiffs acc).length →
      (movement_score n acc).get? (n + j) =
        some ((((((accDiffs acc).drop j).take n).map sum3).sum : ℚ) / (n : ℚ) / 8)) := by
  refine ⟨?_, ?_, ?_⟩
  · have hd : (accDiffs acc).length = acc.length - 1 := by
      simp [accDiffs]
    simp only [movement_score, List.length_append, List.length_replicate,
      calc_movement_score, List.length_map, windows_length n hn, hd]
    omega
  · intro i hi
    rw [movement_score, List.get?_append (by simpa using hi)]
    exact replicate_getq n i hi
  · intro j hj
    rw [movement_score, List.get?_append_right (by simp)]
    simp only [List.length_replicate, Nat.add_sub_cancel_left, calc_movement_score,
      List.get?_map, windows_getq n hn (accDiffs acc) j hj]
    rfl

/-- Witness for the C5 theorem at `n = 1`,
`acc = [(0, 0, 0), (1, 2, 3)]`. -/
theorem movement_score_spec_witness :
    1 ≤ 1 ∧
    ((movement_score 1 [(0, 0, 0), (1, 2, 3)]).length
        = max 1 ([((0 : Int), (0 : Int), (0 : Int)), (1, 2, 3)] : List (Int × Int × Int)).length ∧
      (∀ i, i < 1 → (movement_score 1 [(0, 0, 0), (1, 2, 3)]).get? i = some 0) ∧
      (∀ j, j + 1 ≤ (accDiffs [(0, 0, 0), (1, 2, 3)]).length →
        (movement_score 1 [(0, 0, 0), (1, 2, 3)]).get? (1 + j) =
          some ((((((accDiffs [(0, 0, 0), (1, 2, 3)]).drop j).take 1).map sum3).sum : ℚ)
            / (1 : ℚ) / 8))) :=
  ⟨by decide, movement_score_spec 1 [(0, 0, 0), (1, 2, 3)] (by decide)⟩

/-! Section: per-user raw-df cache (`user.rs:60-81, 209-218`) -/

/-- The two `Memo` cells of `User` that `get_raw_df` reads
(`user.rs:89-91`): the cached raw df and `last_raw_df_date`.  The df
payload and the date are abstracted to `ℕ`. -/
structure UserDfState where
  raw_df : Option ℕ
  last_raw_df_date : Option ℕ
deriving DecidableEq, Repr

/-- Initial state, `Memo::default()` twice: both cells start `None`
(`User::new`, `user.rs:120-129`). -/
def initialUserDfState : UserDfState :=
  ⟨none, none⟩

/-- Embedding of `get_raw_df` (`user.rs:209-218`), with the expensive
`self.get_df(OutputType::raw, date)` abstracted as `compute`.  The boolean
result records whether `compute` ran (a recomputation).  Faithfully to the
source, the staleness test reads `last_raw_df_date` but *nothing ever
writes it* — no assignment to that cell exists anywhere in the crate — so
the published state keeps whatever `last_raw_df_date` it had. -/
def get_raw_df (compute : Option ℕ → ℕ) (s : UserDfState) (date : Option ℕ) :
    ℕ × UserDfState × Bool :=
  if s.raw_df.isNone ∨ s.last_raw_df_date ≠ date then
    (compute date, ⟨some (compute date), s.last_raw_df_date⟩, true)
  else
    (s.raw_df.getD 0, s, false)

/-- C8 (code behaviour at the claim's scenario): starting from a fresh
`User`, a first `get_raw_df(Some d)` computes and publishes the value, yet
the immediately following `get_raw_df(Some d)` with the *same* date
recomputes again — the staleness check `last_raw_df_date != date` always
fires for `Some` dates because `last_raw_df_date` is never written and
stays `None`.  Only the `date = None` case is served from the cache on the
second call. -/
theorem get_raw_df_recomputes_on_same_date (compute : Option ℕ → ℕ) (d : ℕ) :
    (get_raw_df compute
      (get_raw_df compute initialUserDfState (some d)).2.1 (some d)).2.2 = true ∧
    (get_raw_df compute
      (get_raw_df compute initialUserDfState none).2.1 none).2.2 = false := by
  constructor
  · simp [get_raw_df, initialUserDfState]
  · simp [get_raw_df, initialUserDfState]
